import Mathlib

/-!
Verification of the go-i18n translation library (nimbusec-oss/go-i18n).

The Go source is shallowly embedded: Go strings are lists of characters
(`GoStr`); Go byte-level operations (`len`, indexing) act on the UTF-8
encoding computed by `strBytes`; Go maps are association lists with
replace-on-insert semantics; functions returning `(T, error)` become
pairs with an `Option` error component, and helpers that fail become
`Except`.  Standard-library collaborators (`strings.Count/Split/Index/
Replace/Trim*/ToLower`, `unicode.IsLetter`, `html.EscapeString`,
`fmt.Sprintf %v`, `filepath.Ext/Split`) are embedded faithfully on the
character ranges the program exercises; Unicode tables are restricted to
the Latin-1 block (Go's fast path), identity/false elsewhere, which is
noted at each definition.
-/

namespace I18n

/-- A Go string, modelled as its sequence of Unicode characters (runes). -/
abbrev GoStr := List Char

/-- Convert a Lean string literal to the embedded representation. -/
def gs (s : String) : GoStr := s.toList

/-- The character `{` (written by code point to keep literals brace-free). -/
def lbrace : Char := Char.ofNat 123

/-- The character `}`. -/
def rbrace : Char := Char.ofNat 125

/-- Go constant `Prefix = "{{"`, the opening placeholder delimiter. -/
def openDelim : GoStr := [lbrace, lbrace]

/-- Go constant `Suffix = "}}"`, the closing placeholder delimiter. -/
def closeDelim : GoStr := [rbrace, rbrace]

/-- UTF-8 encoding of one character, as its list of byte values.
Mirrors Go's rune-to-byte encoding of strings. -/
def charUtf8 (c : Char) : List Nat :=
  let n := c.toNat
  if n < 0x80 then [n]
  else if n < 0x800 then [0xC0 + n / 0x40, 0x80 + n % 0x40]
  else if n < 0x10000 then
    [0xE0 + n / 0x1000, 0x80 + n / 0x40 % 0x40, 0x80 + n % 0x40]
  else
    [0xF0 + n / 0x40000, 0x80 + n / 0x1000 % 0x40,
     0x80 + n / 0x40 % 0x40, 0x80 + n % 0x40]

/-- The UTF-8 byte sequence of a Go string: what `len(s)` and `s[i]`
operate on in Go. -/
def strBytes (s : GoStr) : List Nat := (s.map charUtf8).flatten

/-- Go `unicode.IsLetter` on code points below 0x100 (Go's Latin-1 fast
path); the program only ever applies it to single byte values, which are
all below 0x100, so the table is exact for every reachable input. -/
def goIsLetterCode (n : Nat) : Bool :=
  (65 ≤ n && n ≤ 90) || (97 ≤ n && n ≤ 122) ||
  n == 0xAA || n == 0xB5 || n == 0xBA ||
  (0xC0 ≤ n && n ≤ 0xD6) || (0xD8 ≤ n && n ≤ 0xF6) ||
  (0xF8 ≤ n && n ≤ 0xFF)

/-- Go `Language` is the code abbreviation of a language. -/
abbrev Language := GoStr

/-- Go `Language.Valid` from translation.go: `len(lang) == 2 &&
unicode.IsLetter(rune(lang[0])) && unicode.IsLetter(rune(lang[1]))`.
`len` is the byte length and `lang[i]` the i-th byte of the UTF-8
encoding, converted to a rune (code point) before the letter test. -/
def Language.Valid (lang : Language) : Bool :=
  let b := strBytes lang
  b.length == 2 && goIsLetterCode (b.getD 0 0) && goIsLetterCode (b.getD 1 0)

/-- Go `Key` is a dot-separated identifier for a translation. -/
abbrev Key := GoStr

/-- The character `.`. -/
def dotChar : Char := '.'

/-- Go `strings.Trim(s, ".")`: remove leading and trailing `.` characters. -/
def trimDots (s : GoStr) : GoStr :=
  ((s.dropWhile (· = dotChar)).reverse.dropWhile (· = dotChar)).reverse

/-- Go `Key.Append` from translation.go: trim dots from the fragment; an
empty trimmed fragment is a no-op; otherwise join with `.` unless the
key is empty. -/
def Key.Append (k : Key) (s : GoStr) : Key :=
  let s := trimDots s
  if s = [] then k
  else if k ≠ [] then k ++ [dotChar] ++ s
  else s

example : Language.Valid (gs "de") = true := by decide
example : Language.Valid (gs "d3") = false := by decide
example : Language.Valid (gs "een") = false := by decide
example : Key.Append (Key.Append [] (gs "a")) (gs ".b.") = gs "a.b" := by decide

/-- Go `strings.HasPrefix(s, pat)`: does `s` start with `pat`? -/
def startsWith : GoStr → GoStr → Bool
  | _, [] => true
  | [], _ :: _ => false
  | c :: cs, p :: ps => c = p && startsWith cs ps

/-- Count of non-overlapping occurrences of the non-empty pattern
`p :: ps` in the string, scanning left to right (`strings.Count`).
The fuel argument only forces structural recursion; it is initialised
to the string length, which the scan never exceeds. -/
def countFuel (p : Char) (ps : GoStr) : Nat → GoStr → Nat
  | _, [] => 0
  | 0, _ :: _ => 0
  | fuel + 1, c :: rest =>
    if startsWith (c :: rest) (p :: ps)
    then 1 + countFuel p ps fuel (rest.drop ps.length)
    else countFuel p ps fuel rest

/-- Go `strings.Count(s, pat)`.  For an empty pattern Go returns
1 + the rune count; the program only counts the two-character
delimiters. -/
def countSub (s pat : GoStr) : Nat :=
  match pat with
  | [] => 1 + s.length
  | p :: ps => countFuel p ps s.length s

/-- Split on each non-overlapping occurrence of the non-empty pattern,
accumulating the current chunk (`strings.Split` with non-empty
separator).  Fuel forces structural recursion, initialised to the
string length. -/
def splitFuel (p : Char) (ps : GoStr) : Nat → GoStr → GoStr → List GoStr
  | _, acc, [] => [acc]
  | 0, acc, _ :: _ => [acc]
  | fuel + 1, acc, c :: rest =>
    if startsWith (c :: rest) (p :: ps)
    then acc :: splitFuel p ps fuel [] (rest.drop ps.length)
    else splitFuel p ps fuel (acc ++ [c]) rest

/-- Go `strings.Split(s, pat)`.  The program only splits on `"{\x7b"`;
the empty-separator case (Go: one chunk per rune) is unreachable here. -/
def splitSub (s pat : GoStr) : List GoStr :=
  match pat with
  | [] => s.map (fun c => [c])
  | p :: ps => splitFuel p ps s.length [] s

/-- Index (from `k`) of the first occurrence of the non-empty pattern,
or `none` (`strings.Index` semantics, result offset by `k`). -/
def indexAux (p : Char) (ps : GoStr) : GoStr → Nat → Option Nat
  | [], _ => none
  | c :: rest, k =>
    if startsWith (c :: rest) (p :: ps) then some k
    else indexAux p ps rest (k + 1)

/-- Go `strings.Index(s, pat)` returning `Option Nat` in place of Go's
`-1` failure value (the pattern here is always `"\x7d\x7d"`). -/
def goIndex (s pat : GoStr) : Option Nat :=
  match pat with
  | [] => some 0
  | p :: ps => indexAux p ps s 0

/-- Replace every non-overlapping occurrence of the non-empty pattern
`p :: ps` by `repl`, scanning left to right.  Fuel forces structural
recursion, initialised to the string length. -/
def replaceFuel (p : Char) (ps : GoStr) (repl : GoStr) : Nat → GoStr → GoStr
  | _, [] => []
  | 0, lst => lst
  | fuel + 1, c :: rest =>
    if startsWith (c :: rest) (p :: ps)
    then repl ++ replaceFuel p ps repl fuel (rest.drop ps.length)
    else c :: replaceFuel p ps repl fuel rest

/-- Go `strings.Replace(s, old, new, -1)`: replace all occurrences.  The
program always calls it with `old = Intermediate.Format i`, which is
never empty, so Go's empty-`old` interleaving behaviour is
unreachable. -/
def goReplaceAll (s old repl : GoStr) : GoStr :=
  match old with
  | [] => s
  | p :: ps => replaceFuel p ps repl s.length s

/-- Go `unicode.IsSpace` on the Latin-1 block (Go's fast path):
space, tab, newline, vertical tab, form feed, carriage return,
NEL (U+0085) and NBSP (U+00A0).  The exotic Unicode space classes
beyond Latin-1 are not modelled. -/
def isSpaceChar (c : Char) : Bool :=
  c = ' ' || c.toNat == 9 || c.toNat == 10 || c.toNat == 11 ||
  c.toNat == 12 || c.toNat == 13 || c.toNat == 0x85 || c.toNat == 0xA0

/-- Go `strings.TrimSpace`: drop whitespace from both ends. -/
def trimSpaceStr (s : GoStr) : GoStr :=
  ((s.dropWhile isSpaceChar).reverse.dropWhile isSpaceChar).reverse

deriving instance DecidableEq for Except

/-- Go `Intermediate` is a named placeholder within a translation. -/
abbrev Intermediate := GoStr

/-- Go `Intermediate.Format`: the placeholder in i18next notation,
`Prefix + name + Suffix`. -/
def Intermediate.Format (i : Intermediate) : GoStr :=
  openDelim ++ i ++ closeDelim

/-- Errors produced by `parseIntermediates`, one constructor per
`errors.New` call site:
`"invalid format of intermediates"` (unbalanced delimiter counts),
`"invalid format of intermediates, must end with }\x7d"`, and
`"empty intermediate"`. -/
inductive ParseIntermErr
  | unbalanced
  | unterminated
  | emptyIntermediate
deriving DecidableEq, Repr

/-- The `for _, part := range parts` loop of `parseIntermediates`:
locate the closing delimiter in each part, trim the name, reject empty
names, and collect the names in order, stopping at the first error. -/
def parseLoop : List GoStr → Except ParseIntermErr (List Intermediate)
  | [] => .ok []
  | part :: rest =>
    match goIndex part closeDelim with
    | none => .error .unterminated
    | some i =>
      let name := trimSpaceStr (part.take i)
      if name = [] then .error .emptyIntermediate
      else (parseLoop rest).map (name :: ·)

/-- Go `parseIntermediates` from translation.go: check the delimiter
counts balance, split on the opening delimiter, discard the first
chunk, then extract a trimmed non-empty name from every later chunk. -/
def parseIntermediates (message : GoStr) : Except ParseIntermErr (List Intermediate) :=
  if countSub message openDelim ≠ countSub message closeDelim
  then .error .unbalanced
  else parseLoop (splitSub message openDelim).tail

example :
    parseIntermediates (gs "Hi \x7b\x7bname\x7d\x7d!") = .ok [gs "name"] := by
  decide
example :
    parseIntermediates (gs "\x7b\x7ba\x7d\x7d and \x7b\x7ba\x7d\x7d") =
      .ok [gs "a", gs "a"] := by
  decide
example : parseIntermediates (gs "\x7b\x7ba") = .error .unbalanced := by decide
example :
    parseIntermediates (gs "\x7b\x7b\x7d\x7d") = .error .emptyIntermediate := by
  decide
example :
    parseIntermediates (gs "\x7d\x7d\x7b\x7ba") = .error .unterminated := by
  decide

/-- Association-list lookup, modelling Go map indexing `m[k]` with its
comma-ok form. -/
def alookup {β : Type} : List (GoStr × β) → GoStr → Option β
  | [], _ => none
  | (k, v) :: rest, key => if k = key then some v else alookup rest key

/-- Association-list insertion, modelling Go map assignment `m[k] = v`
(replace the existing binding or add a new one). -/
def ainsert {β : Type} : List (GoStr × β) → GoStr → β → List (GoStr × β)
  | [], k, v => [(k, v)]
  | (k0, v0) :: rest, k, v =>
    if k0 = k then (k, v) :: rest else (k0, v0) :: ainsert rest k v

/-- A dynamically-typed Go value (`interface\x7b\x7d`), restricted to the
variants the program's parameter lists carry: strings, integers and
booleans. -/
inductive GoValue
  | str (s : GoStr)
  | int (n : Int)
  | bool (b : Bool)
deriving DecidableEq, Repr

/-- Decimal digits of a natural number. -/
def natToStr (n : Nat) : GoStr := Nat.toDigits 10 n

/-- Go `fmt.Sprintf("%v", v)`: the default textual representation of a
value — strings verbatim, integers in decimal, booleans as
`true`/`false`. -/
def sprintfV : GoValue → GoStr
  | .str s => s
  | .int n => if n < 0 then '-' :: natToStr (-n).toNat else natToStr n.toNat
  | .bool b => if b then gs "true" else gs "false"

/-- The character `'` (apostrophe, by code point). -/
def aposChar : Char := Char.ofNat 39

/-- The character `"` (double quote, by code point). -/
def quotChar : Char := Char.ofNat 34

/-- Escape one character as `html.EscapeString` does: `&` to `&amp;`,
`'` to `&#39;`, `<` to `&lt;`, `>` to `&gt;`, `"` to `&#34;`. -/
def escapeChar (c : Char) : GoStr :=
  if c = '&' then gs "&amp;"
  else if c = aposChar then gs "&#39;"
  else if c = '<' then gs "&lt;"
  else if c = '>' then gs "&gt;"
  else if c = quotChar then gs "&#34;"
  else [c]

/-- Go `html.EscapeString`: escape the five special HTML characters. -/
def htmlEscape (s : GoStr) : GoStr := (s.map escapeChar).flatten

example : htmlEscape (gs "<script>") = gs "&lt;script&gt;" := by decide

/-- Go `template.HTML`: a string marked as pre-escaped raw HTML that a
consuming template engine must not re-escape. -/
structure GoHTML where
  content : GoStr
deriving DecidableEq, Repr

/-- A `Translation` couples the raw message with the placeholder names
parsed out of it. -/
structure Translation where
  Message : GoStr
  Intermediates : List Intermediate
deriving DecidableEq, Repr

/-- Go `Store` maps keys to translations for one language. -/
abbrev Store := List (Key × Translation)

/-- The `Translations` catalog: source directory, configured default
language, the optional language-resolver callback of the dynamic
renderer (modelled by the code it would return, `none` for Go `nil`),
and the per-language stores. -/
structure Translations where
  directory : GoStr
  defaultLanguage : Language
  languageFn : Option GoStr
  translations : List (Language × Store)
deriving DecidableEq, Repr

/-- Go `NewTranslations`: construct an empty catalog from configuration. -/
def NewTranslations (directory : GoStr) (defaultLanguage : GoStr)
    (languageFn : Option GoStr) : Translations :=
  ⟨directory, defaultLanguage, languageFn, []⟩

/-- Errors returned at translate time, one constructor per error call
site: `"invalid dict call"`, `"dict keys must be strings"`,
`"unknown language %q"`, `"unknown key %q"`, and
`"parameter required for intermediate in translation %q: %q"`. -/
inductive TranslateError
  | invalidDictCall
  | dictKeysMustBeStrings
  | unknownLanguage (lang : Language)
  | unknownKey (key : Key)
  | parameterRequired (key : Key) (i : Intermediate)
deriving DecidableEq, Repr

/-- The `for i := 0; i < len(parameter); i += 2` loop of
`createIntermediateLookup`: each name position must hold a string, each
following position supplies its value. -/
def buildLookup (acc : List (Intermediate × GoValue)) :
    List GoValue → Except TranslateError (List (Intermediate × GoValue))
  | [] => .ok acc
  | k :: v :: rest =>
    match k with
    | .str name => buildLookup (ainsert acc name v) rest
    | _ => .error .dictKeysMustBeStrings
  | [_] => .ok acc

/-- Go `createIntermediateLookup`: reject odd-length parameter lists, then
fold the alternating name/value pairs into a lookup map.  (The
single-element case of `buildLookup` is unreachable once the length is
even.) -/
def createIntermediateLookup (parameter : List GoValue) :
    Except TranslateError (List (Intermediate × GoValue)) :=
  if parameter.length % 2 ≠ 0 then .error .invalidDictCall
  else buildLookup [] parameter

/-- The `for _, intermediate := range translation.Intermediates` loop
shared by both renderers: demand a value for each parsed placeholder,
escape its default stringification, and replace all occurrences of the
formatted token in the (progressively rewritten) message. -/
def substitute (key : Key) (lookup : List (Intermediate × GoValue)) :
    List Intermediate → GoStr → Except TranslateError GoStr
  | [], message => .ok message
  | i :: rest, message =>
    match alookup lookup i with
    | none => .error (.parameterRequired key i)
    | some v =>
      substitute key lookup rest
        (goReplaceAll message (Intermediate.Format i) (htmlEscape (sprintfV v)))

/-- The shared body of `Translate` and of the closure returned by
`GenerateTranslate`, after the active language has been resolved:
build the parameter lookup, find the store and the key, substitute the
placeholders.  Mirrors Go's `(template.HTML, error)` result as a pair
whose error case carries the empty string. -/
def renderWith (trl : Translations) (lang : Language) (k : Key)
    (params : List GoValue) : GoHTML × Option TranslateError :=
  match createIntermediateLookup params with
  | .error e => (⟨[]⟩, some e)
  | .ok lookup =>
    match alookup trl.translations lang with
    | none => (⟨[]⟩, some (.unknownLanguage lang))
    | some store =>
      match alookup store k with
      | none => (⟨[]⟩, some (.unknownKey k))
      | some translation =>
        match substitute k lookup translation.Intermediates translation.Message with
        | .error e => (⟨[]⟩, some e)
        | .ok message => (⟨message⟩, none)

/-- The language the dynamic renderer resolves per call: the callback's
result when present and valid, else the configured default. -/
def resolvedLang (trl : Translations) : Language :=
  match trl.languageFn with
  | none => trl.defaultLanguage
  | some target => if Language.Valid target then target else trl.defaultLanguage

/-- Go `Translations.Translate` (the dynamic renderer): build the lookup,
resolve the language via the callback with fallback to the default,
then render. -/
def Translations.Translate (trl : Translations) (k : Key)
    (params : List GoValue) : GoHTML × Option TranslateError :=
  renderWith trl (resolvedLang trl) k params

/-- Go `Translations.GenerateTranslate` (the fixed renderer): resolve the
language once at construction time — the target when valid, else the
configured default — and return the rendering closure. -/
def Translations.GenerateTranslate (trl : Translations) (targetLang : GoStr) :
    Key → List GoValue → GoHTML × Option TranslateError :=
  let lang := if Language.Valid targetLang then targetLang else trl.defaultLanguage
  fun k params => renderWith trl lang k params

/-- Go `Translations.GenerateDefaultTranslate`: the fixed renderer for the
configured default language. -/
def Translations.GenerateDefaultTranslate (trl : Translations) :
    Key → List GoValue → GoHTML × Option TranslateError :=
  Translations.GenerateTranslate trl trl.defaultLanguage

mutual
/-- A parsed JSON value as `json.Unmarshal` delivers it into
`map[string]interface\x7b\x7d`: strings, objects, and the value kinds
the flattener rejects (numbers, booleans, arrays, null).  The payloads
of the rejected kinds are never inspected — only their dynamic type
tag is — so they are not carried. -/
inductive Json
  | str (s : GoStr)
  | obj (members : JsonMembers)
  | num
  | boolean
  | arr
  | null

/-- The members of a JSON object, as an association spine (a mutual
inductive rather than a nested `List` so that the flattener is
structurally recursive). -/
inductive JsonMembers
  | nil
  | cons (key : GoStr) (value : Json) (rest : JsonMembers)
end

deriving instance DecidableEq for Json, JsonMembers
deriving instance Repr for Json, JsonMembers

/-- Errors of the recursive `flatten` closure in `Load`, one
constructor per error site: `"invalid translation for %q"` (object with
zero members), `"invalid key, should not be empty"`, a
`parseIntermediates` failure tagged `"%v with key %q"`, and
`"invalid type %T in translation file"`. -/
inductive FlattenErr
  | invalidTranslation (key : Key)
  | emptyKey
  | badIntermediates (e : ParseIntermErr) (key : Key)
  | invalidType
deriving DecidableEq, Repr

/-- The `for key, value := range data` loop of `flatten` from `Load`:
reject empty keys, append the fragment to the accumulated key, store
string leaves (after parsing their placeholders), recurse into objects,
reject every other value type.  The recursive `flatten` call on an
object value first performs `flatten`'s own zero-member check, which is
inlined here (the `.obj .nil` arm) so that the recursion is structural;
the Go closure mutates a shared `store`, which is threaded through
instead. -/
def flattenMembers (store : Store) (rootKey : Key) :
    JsonMembers → Except FlattenErr Store
  | .nil => .ok store
  | .cons key value rest =>
    if key = [] then .error .emptyKey
    else
      let rk := Key.Append rootKey key
      match value with
      | .str message =>
        match parseIntermediates message with
        | .error e => .error (.badIntermediates e rk)
        | .ok ims =>
          flattenMembers (ainsert store rk ⟨message, ims⟩) rootKey rest
      | .obj .nil => .error (.invalidTranslation rk)
      | .obj (.cons k2 v2 r2) =>
        match flattenMembers store rk (.cons k2 v2 r2) with
        | .error e => .error e
        | .ok store2 => flattenMembers store2 rootKey rest
      | _ => .error .invalidType

/-- Go `flatten(rootKey, data)` from `Load`: an object with zero members
is an error; otherwise process each member in order via
`flattenMembers`. -/
def flattenObj (store : Store) (rootKey : Key) (data : JsonMembers) :
    Except FlattenErr Store :=
  match data with
  | .nil => .error (.invalidTranslation rootKey)
  | .cons k v rest => flattenMembers store rootKey (.cons k v rest)

example :
    flattenObj [] []
        (.cons (gs "tyson") (.obj (.cons (gs "defeated") (.str (gs "x")) .nil)) .nil) =
      .ok [(gs "tyson.defeated", ⟨gs "x", []⟩)] := by
  decide

/-- Errors of `Load`, one constructor per error site: the invalid
default language check, an error handed to the walk callback by
`filepath.Walk`, the file-naming check, a read or JSON-parse failure
(`"%v for %q"`), a flattening failure (`"%v for %q"`), an empty
per-file store (`"no translations found for %q"`), and the final
missing-default check. -/
inductive LoadError
  | invalidDefaultLanguage
  | walkError (e : GoStr)
  | invalidFileNaming (lang : GoStr)
  | fileError (e : GoStr) (lang : Language)
  | flattenError (e : FlattenErr) (lang : Language)
  | noTranslationsFor (lang : Language)
  | missingDefault
deriving DecidableEq, Repr

/-- One entry handed to the walk callback by `filepath.Walk`: its path,
whether it is a directory, the traversal error (if any) passed in as
the callback's `err` argument, and — for files that get read — the
combined result of `ioutil.ReadFile` and `json.Unmarshal` into a
string-keyed tree (both external collaborators). -/
structure FileEntry where
  path : GoStr
  isDir : Bool
  walkErr : Option GoStr
  content : Except GoStr JsonMembers
deriving DecidableEq, Repr

/-- The character `/` (the path separator on the target platform). -/
def slashChar : Char := '/'

/-- Backwards scan for `filepath.Ext`: collect characters until the
last dot (returning the dot-suffix) or a path separator / the string
start (returning empty). -/
def pathExtAux : GoStr → GoStr → GoStr
  | [], _ => []
  | c :: rest, acc =>
    if c = dotChar then dotChar :: acc
    else if c = slashChar then []
    else pathExtAux rest (c :: acc)

/-- Go `filepath.Ext(path)`: the suffix beginning at the final dot in the
final path element, empty if there is none. -/
def pathExt (path : GoStr) : GoStr := pathExtAux path.reverse []

/-- The file component of `filepath.Split(path)`: everything after the
final separator. -/
def pathBase (path : GoStr) : GoStr :=
  (path.reverse.takeWhile (· ≠ slashChar)).reverse

/-- Does `s` end with `pat`? (`strings.HasSuffix`). -/
def endsWith (s pat : GoStr) : Bool := startsWith s.reverse pat.reverse

/-- Go `strings.TrimSuffix(s, pat)`: drop a trailing `pat` if present. -/
def trimSuffixStr (s pat : GoStr) : GoStr :=
  if endsWith s pat then s.take (s.length - pat.length) else s

/-- Go `unicode.ToLower` on the Latin-1 block (ASCII `A`-`Z` and the
accented uppercase ranges U+00C0-U+00D6, U+00D8-U+00DE map 32 code
points up); characters outside the block are left unchanged.  The full
Unicode case tables beyond Latin-1 are not modelled; no mapping in
them produces a Latin-1 uppercase letter either, which is the only
property the proofs use. -/
def toLowerChar (c : Char) : Char :=
  let n := c.toNat
  if 65 ≤ n && n ≤ 90 then Char.ofNat (n + 32)
  else if 0xC0 ≤ n && n ≤ 0xD6 then Char.ofNat (n + 32)
  else if 0xD8 ≤ n && n ≤ 0xDE then Char.ofNat (n + 32)
  else c

/-- Go `strings.ToLower`: lower-case every character. -/
def goToLower (s : GoStr) : GoStr := s.map toLowerChar

/-- The body of the walk callback in `Load`, for one entry: propagate
traversal errors, skip directories and non-`.json` files, derive the
lower-cased language code from the file name and validate it, read and
parse the file, flatten it, reject an empty resulting store, and record
the store under the language code. -/
def processEntry (acc : List (Language × Store)) (e : FileEntry) :
    Except LoadError (List (Language × Store)) :=
  match e.walkErr with
  | some err => .error (.walkError err)
  | none =>
    if e.isDir then .ok acc
    else
      let extension := pathExt e.path
      if extension ≠ gs ".json" then .ok acc
      else
        let file := pathBase e.path
        let lang := goToLower (trimSuffixStr file extension)
        if ¬ Language.Valid lang then .error (.invalidFileNaming lang)
        else
          match e.content with
          | .error err => .error (.fileError err lang)
          | .ok deserialized =>
            match flattenObj [] [] deserialized with
            | .error fe => .error (.flattenError fe lang)
            | .ok store =>
              if store.length = 0 then .error (.noTranslationsFor lang)
              else .ok (ainsert acc lang store)

/-- Go `filepath.Walk` over the directory's entries: run the callback on
each entry in order, stopping at the first error. -/
def walkAll (acc : List (Language × Store)) :
    List FileEntry → Except LoadError (List (Language × Store))
  | [] => .ok acc
  | e :: rest =>
    match processEntry acc e with
    | .error err => .error err
    | .ok acc2 => walkAll acc2 rest

/-- The zero value `Translations\x7b\x7d` that `Load` returns alongside
every error. -/
def blankTranslations : Translations := ⟨[], [], none, []⟩

/-- Go `Translations.Load`: validate the default language, walk the
directory building one store per language file, and require a store for
the default language.  Any error yields the blank zero-value catalog. -/
def Translations.Load (trl : Translations) (entries : List FileEntry) :
    Translations × Option LoadError :=
  if ¬ Language.Valid trl.defaultLanguage then
    (blankTranslations, some .invalidDefaultLanguage)
  else
    match walkAll [] entries with
    | .error e => (blankTranslations, some e)
    | .ok m =>
      match alookup m trl.defaultLanguage with
      | none => (blankTranslations, some .missingDefault)
      | some _ => ({ trl with translations := m }, none)

example :
    Translations.Load (NewTranslations (gs "d") (gs "en") none)
        [⟨gs "d/en.json", false, none, .ok (.cons (gs "a") (.str (gs "hello")) .nil)⟩] =
      ({ NewTranslations (gs "d") (gs "en") none with
          translations := [(gs "en", [(gs "a", ⟨gs "hello", []⟩)])] }, none) := by
  decide

/-! ## Helper lemmas -/

theorem charOfNat_toNat {n : Nat} (h : n < 0xD800) : (Char.ofNat n).toNat = n := by
  have hv : n.isValidChar := Or.inl h
  simp [Char.ofNat, hv, Char.toNat, Char.ofNatAux, UInt32.toNat, BitVec.toNat_ofNatLt]

theorem strBytes_ascii (s : GoStr) (h : ∀ c ∈ s, c.toNat < 128) :
    strBytes s = s.map Char.toNat := by
  induction s with
  | nil => rfl
  | cons a t ih =>
    have ha : a.toNat < 128 := h a (by simp)
    have ht : ∀ c ∈ t, c.toNat < 128 := fun c hc => h c (by simp [hc])
    simp only [strBytes, List.map_cons, List.flatten_cons] at *
    rw [charUtf8]
    simp only [ha, if_pos]
    simpa using ih ht

/-! ## C8 — Key.Append -/

/-- C8: `Key.Append` first trims leading and trailing `.` characters
from the fragment; if the trimmed fragment is empty the key is returned
unchanged, if the key is empty the result is the trimmed fragment
alone, and otherwise the result is the key, a single `.`, then the
trimmed fragment; appending `["a", ".b.", "c"]` from the empty key
yields `"a.b.c"` and interior non-alphanumeric fragments like `"/"`
pass through unchanged. -/
theorem c8_key_append (k : Key) (s : GoStr) :
    (trimDots s = [] → Key.Append k s = k) ∧
    (trimDots s ≠ [] → k = [] → Key.Append k s = trimDots s) ∧
    (trimDots s ≠ [] → k ≠ [] → Key.Append k s = k ++ [dotChar] ++ trimDots s) ∧
    List.foldl Key.Append [] [gs "a", gs ".b.", gs "c"] = gs "a.b.c" ∧
    List.foldl Key.Append [] [gs "a", gs "b", [], gs "d"] = gs "a.b.d" ∧
    List.foldl Key.Append [] [gs "a", gs "/", gs "#", gs "?"] = gs "a./.#.?" := by
  refine ⟨?_, ?_, ?_, by decide, by decide, by decide⟩
  · intro h; simp [Key.Append, h]
  · intro h hk; simp [Key.Append, h, hk]
  · intro h hk; simp [Key.Append, h, hk]

theorem c8_key_append_witness :
    Key.Append (gs "a") (gs ".b.") = gs "a" ++ [dotChar] ++ trimDots (gs ".b.") :=
  (c8_key_append (gs "a") (gs ".b.")).2.2.1 (by decide) (by decide)

/-! ## C2 — Language.Valid -/

/-- The property the claim ascribes to `Valid`: exactly two characters,
each a Unicode letter (the letter table is exact below U+0100, which
covers the code points used in the counterexample). -/
def twoLetterChars (s : GoStr) : Bool :=
  s.length == 2 && s.all (fun c => goIsLetterCode c.toNat)

/-- C2 counterexample: `Valid` is not "exactly two characters, both
Unicode letters".  The single character U+00EA (`ê`, a letter) encodes
to the two UTF-8 bytes 0xC3 0xAA, whose code points land in the letter
table, so `Valid` accepts this one-character string; conversely the
two-letter string `éé` (U+00E9 twice) has four UTF-8 bytes and is
rejected. -/
theorem c2_valid_counterexample :
    Language.Valid [Char.ofNat 0xEA] = true ∧
    twoLetterChars [Char.ofNat 0xEA] = false ∧
    Language.Valid [Char.ofNat 0xE9, Char.ofNat 0xE9] = false ∧
    twoLetterChars [Char.ofNat 0xE9, Char.ofNat 0xE9] = true := by
  decide

/-- C2 amended: `Valid` tests the UTF-8 byte length and the two byte
values, so on ASCII strings — where bytes and characters coincide — it
returns true iff the string has exactly two characters and both are
letters. -/
theorem c2_valid_ascii (s : GoStr) (h : ∀ c ∈ s, c.toNat < 128) :
    Language.Valid s = true ↔
      s.length = 2 ∧ ∀ c ∈ s, goIsLetterCode c.toNat = true := by
  simp only [Language.Valid]
  rw [strBytes_ascii s h]
  match s with
  | [] => simp
  | [a] => simp
  | [a, b] =>
    simp [List.getD, Bool.and_eq_true, List.all_cons]
  | a :: b :: c :: t =>
    simp only [List.map_cons, List.length_cons, Bool.and_eq_true, beq_iff_eq]
    constructor
    · rintro ⟨⟨h2, -⟩, -⟩; omega
    · rintro ⟨h2, -⟩; omega

theorem c2_valid_ascii_witness :
    Language.Valid (gs "de") = true :=
  (c2_valid_ascii (gs "de") (by decide)).mpr (by decide)

/-! ## C4 — parseIntermediates -/

theorem parseLoop_ok (parts : List GoStr)
    (h : ∀ p ∈ parts, ∃ i, goIndex p closeDelim = some i ∧
        trimSpaceStr (p.take i) ≠ []) :
    parseLoop parts =
      .ok (parts.map fun p => trimSpaceStr (p.take ((goIndex p closeDelim).getD 0))) := by
  induction parts with
  | nil => rfl
  | cons p rest ih =>
    obtain ⟨i, hi, hne⟩ := h p (by simp)
    have hrest : ∀ q ∈ rest, ∃ i, goIndex q closeDelim = some i ∧
        trimSpaceStr (q.take i) ≠ [] := fun q hq => h q (by simp [hq])
    simp only [parseLoop, hi, List.map_cons, Option.getD_some]
    simp [hne, ih hrest, Except.map]

theorem parseLoop_error (parts : List GoStr)
    (h : ∃ p ∈ parts, goIndex p closeDelim = none ∨
        ∃ i, goIndex p closeDelim = some i ∧ trimSpaceStr (p.take i) = []) :
    ∃ e, parseLoop parts = .error e := by
  induction parts with
  | nil => simp at h
  | cons p rest ih =>
    rcases h with ⟨q, hq, hbad⟩
    rcases List.mem_cons.mp hq with rfl | hqr
    · rcases hbad with hnone | ⟨i, hi, htr⟩
      · exact ⟨.unterminated, by simp [parseLoop, hnone]⟩
      · exact ⟨.emptyIntermediate, by simp [parseLoop, hi, htr]⟩
    · cases hgi : goIndex p closeDelim with
      | none => exact ⟨.unterminated, by simp [parseLoop, hgi]⟩
      | some i =>
        by_cases htr : trimSpaceStr (p.take i) = []
        · exact ⟨.emptyIntermediate, by simp [parseLoop, hgi, htr]⟩
        · obtain ⟨e, he⟩ := ih ⟨q, hqr, hbad⟩
          exact ⟨e, by simp [parseLoop, hgi, htr, he, Except.map]⟩

/-- C4: `parseIntermediates` fails if the counts of `"{{"` and
`"}}"` occurrences differ, fails if any chunk following an
opening delimiter contains no closing delimiter, fails if any
whitespace-trimmed name between the delimiters is empty, and otherwise
returns exactly the trimmed placeholder names in left-to-right order of
occurrence, duplicates preserved. -/
theorem c4_parse_intermediates (m : GoStr) :
    (countSub m openDelim ≠ countSub m closeDelim →
      parseIntermediates m = .error .unbalanced) ∧
    (countSub m openDelim = countSub m closeDelim →
      (∃ p ∈ (splitSub m openDelim).tail, goIndex p closeDelim = none) →
      ∃ e, parseIntermediates m = .error e) ∧
    (countSub m openDelim = countSub m closeDelim →
      (∃ p ∈ (splitSub m openDelim).tail, ∃ i, goIndex p closeDelim = some i ∧
          trimSpaceStr (p.take i) = []) →
      ∃ e, parseIntermediates m = .error e) ∧
    (countSub m openDelim = countSub m closeDelim →
      (∀ p ∈ (splitSub m openDelim).tail, ∃ i, goIndex p closeDelim = some i ∧
          trimSpaceStr (p.take i) ≠ []) →
      parseIntermediates m =
        .ok ((splitSub m openDelim).tail.map
          fun p => trimSpaceStr (p.take ((goIndex p closeDelim).getD 0)))) := by
  refine ⟨fun hc => by simp [parseIntermediates, hc], ?_, ?_, ?_⟩
  · intro hc hbad
    obtain ⟨e, he⟩ := parseLoop_error _
      (by rcases hbad with ⟨p, hp, hn⟩; exact ⟨p, hp, Or.inl hn⟩)
    exact ⟨e, by simp [parseIntermediates, hc, he]⟩
  · intro hc hbad
    obtain ⟨e, he⟩ := parseLoop_error _
      (by rcases hbad with ⟨p, hp, hn⟩; exact ⟨p, hp, Or.inr hn⟩)
    exact ⟨e, by simp [parseIntermediates, hc, he]⟩
  · intro hc hgood
    simp [parseIntermediates, hc, parseLoop_ok _ hgood]

theorem c4_parse_intermediates_witness :
    parseIntermediates (gs "Hi \x7b\x7bname\x7d\x7d!") =
      .ok (((splitSub (gs "Hi \x7b\x7bname\x7d\x7d!") openDelim).tail).map
        fun p => trimSpaceStr (p.take ((goIndex p closeDelim).getD 0))) :=
  (c4_parse_intermediates (gs "Hi \x7b\x7bname\x7d\x7d!")).2.2.2
    (by decide) (by decide)

/-! ## C5 — flatten -/

/-- C5: flattening errors on an object with zero members at any
recursion level (both the object handed to `flatten` itself and any
nested object value), errors on an empty member key, errors on any
member value that is neither a string nor an object, and maps each
string leaf to a `Translation` stored under the dot-joined accumulated
key, so that `{"tyson":{"defeated":"x"}}` produces exactly the single
key `"tyson.defeated"` with message `"x"`. -/
theorem c5_flatten :
    (∀ store rootKey, flattenObj store rootKey .nil =
      .error (.invalidTranslation rootKey)) ∧
    (∀ store rootKey key rest, key ≠ [] →
      flattenMembers store rootKey (.cons key (.obj .nil) rest) =
        .error (.invalidTranslation (Key.Append rootKey key))) ∧
    (∀ store rootKey v rest,
      flattenMembers store rootKey (.cons [] v rest) = .error .emptyKey) ∧
    (∀ store rootKey key rest, key ≠ [] →
      flattenMembers store rootKey (.cons key .num rest) = .error .invalidType ∧
      flattenMembers store rootKey (.cons key .boolean rest) = .error .invalidType ∧
      flattenMembers store rootKey (.cons key .arr rest) = .error .invalidType ∧
      flattenMembers store rootKey (.cons key .null rest) = .error .invalidType) ∧
    (∀ store rootKey key msg ims rest, key ≠ [] →
      parseIntermediates msg = .ok ims →
      flattenMembers store rootKey (.cons key (.str msg) rest) =
        flattenMembers (ainsert store (Key.Append rootKey key) ⟨msg, ims⟩)
          rootKey rest) ∧
    flattenObj [] []
        (.cons (gs "tyson") (.obj (.cons (gs "defeated") (.str (gs "x")) .nil)) .nil) =
      .ok [(gs "tyson.defeated", ⟨gs "x", []⟩)] := by
  refine ⟨fun store rootKey => rfl, ?_, ?_, ?_, ?_, by decide⟩
  · intro store rootKey key rest hk
    simp [flattenMembers, hk]
  · intro store rootKey v rest
    simp [flattenMembers]
  · intro store rootKey key rest hk
    refine ⟨?_, ?_, ?_, ?_⟩ <;> simp [flattenMembers, hk]
  · intro store rootKey key msg ims rest hk hp
    simp [flattenMembers, hk, hp]

theorem c5_flatten_witness :
    flattenMembers [] [] (.cons (gs "a") (.str (gs "hello")) .nil) =
      flattenMembers (ainsert [] (Key.Append [] (gs "a")) ⟨gs "hello", []⟩) [] .nil :=
  c5_flatten.2.2.2.2.1 [] [] (gs "a") (gs "hello") [] .nil
    (by decide) (by decide)

/-! ## C6 — Load postcondition -/

theorem mem_ainsert {β : Type} (m : List (GoStr × β)) (k : GoStr) (v : β)
    (p : GoStr × β) (hp : p ∈ ainsert m k v) : p ∈ m ∨ p = (k, v) := by
  induction m with
  | nil => simpa [ainsert] using hp
  | cons q rest ih =>
    obtain ⟨k0, v0⟩ := q
    by_cases h : k0 = k
    · simp only [ainsert, if_pos h] at hp
      rcases List.mem_cons.mp hp with rfl | hin
      · exact Or.inr rfl
      · exact Or.inl (List.mem_cons_of_mem _ hin)
    · simp only [ainsert, if_neg h] at hp
      rcases List.mem_cons.mp hp with rfl | hin
      · exact Or.inl (List.mem_cons_self _ _)
      · rcases ih hin with h1 | h2
        · exact Or.inl (List.mem_cons_of_mem _ h1)
        · exact Or.inr h2

theorem processEntry_stores_nonempty (acc : List (Language × Store))
    (e : FileEntry) (m : List (Language × Store))
    (hacc : ∀ p ∈ acc, p.2 ≠ ([] : Store))
    (h : processEntry acc e = .ok m) : ∀ p ∈ m, p.2 ≠ ([] : Store) := by
  obtain ⟨path, isDir, walkErr, content⟩ := e
  unfold processEntry at h
  cases walkErr with
  | some err => exact absurd h (by simp)
  | none =>
    dsimp only at h
    by_cases hd : isDir = true
    · rw [if_pos hd] at h
      cases Except.ok.inj h
      exact hacc
    · rw [if_neg hd] at h
      by_cases hext : pathExt path ≠ gs ".json"
      · rw [if_pos hext] at h
        cases Except.ok.inj h
        exact hacc
      · rw [if_neg hext] at h
        set lang := goToLower (trimSuffixStr (pathBase path) (pathExt path)) with hlang
        by_cases hv : ¬ Language.Valid lang = true
        · rw [if_pos hv] at h
          exact absurd h (by simp)
        · rw [if_neg hv] at h
          cases content with
          | error err => exact absurd h (by simp)
          | ok des =>
            dsimp only at h
            cases hf : flattenObj [] [] des with
            | error fe =>
              rw [hf] at h
              exact absurd h (by simp)
            | ok store =>
              rw [hf] at h
              dsimp only at h
              by_cases hlen : store.length = 0
              · rw [if_pos hlen] at h
                exact absurd h (by simp)
              · rw [if_neg hlen] at h
                cases Except.ok.inj h
                intro p hp
                rcases mem_ainsert _ _ _ p hp with h1 | rfl
                · exact hacc p h1
                · intro hnil
                  exact hlen (by simp [show store = [] from hnil])

theorem walkAll_stores_nonempty (entries : List FileEntry)
    (acc : List (Language × Store)) (m : List (Language × Store))
    (hacc : ∀ p ∈ acc, p.2 ≠ ([] : Store))
    (h : walkAll acc entries = .ok m) : ∀ p ∈ m, p.2 ≠ ([] : Store) := by
  induction entries generalizing acc with
  | nil => exact (Except.ok.inj h) ▸ hacc
  | cons e rest ih =>
    unfold walkAll at h
    split at h
    · exact absurd h (by simp)
    · rename_i acc2 hpe
      exact ih acc2 (processEntry_stores_nonempty acc e acc2 hacc hpe) h

/-- C6: `Load` has a two-branch postcondition — on any error it returns
the blank zero-value catalog alongside the error, with no partial data;
on success the returned catalog's mapping contains a store for the
configured default language, and every store in the mapping has at
least one entry. -/
theorem c6_load (trl : Translations) (entries : List FileEntry) :
    ((Translations.Load trl entries).2 ≠ none →
      (Translations.Load trl entries).1 = blankTranslations) ∧
    ((Translations.Load trl entries).2 = none →
      alookup (Translations.Load trl entries).1.translations
          trl.defaultLanguage ≠ none ∧
      ∀ p ∈ (Translations.Load trl entries).1.translations,
        p.2 ≠ ([] : Store)) := by
  unfold Translations.Load
  split
  · exact ⟨fun _ => rfl, fun h => absurd h (by simp)⟩
  · split
    · exact ⟨fun _ => rfl, fun h => absurd h (by simp)⟩
    · rename_i m hwalk
      split
      · exact ⟨fun _ => rfl, fun h => absurd h (by simp)⟩
      · rename_i st hdef
        refine ⟨fun h => absurd rfl h, fun _ => ⟨by simp [hdef], ?_⟩⟩
        exact walkAll_stores_nonempty entries [] m (by simp) hwalk

theorem c6_load_witness :
    alookup
        ((Translations.Load (NewTranslations (gs "d") (gs "en") none)
          [⟨gs "d/en.json", false, none,
            .ok (.cons (gs "a") (.str (gs "hello")) .nil)⟩]).1.translations)
        (NewTranslations (gs "d") (gs "en") none).defaultLanguage ≠ none :=
  ((c6_load (NewTranslations (gs "d") (gs "en") none)
      [⟨gs "d/en.json", false, none,
        .ok (.cons (gs "a") (.str (gs "hello")) .nil)⟩]).2 (by decide)).1

/-! ## C9 — uppercase default language never loads -/

/-- Go `unicode.IsUpper` on the Latin-1 block: `A`-`Z`, U+00C0-U+00D6 and
U+00D8-U+00DE. -/
def isUpperLatin1 (c : Char) : Bool :=
  (65 ≤ c.toNat && c.toNat ≤ 90) ||
  (0xC0 ≤ c.toNat && c.toNat ≤ 0xD6) ||
  (0xD8 ≤ c.toNat && c.toNat ≤ 0xDE)

theorem toLowerChar_not_upper (c : Char) :
    isUpperLatin1 (toLowerChar c) = false := by
  unfold toLowerChar
  dsimp only
  split
  · rename_i h
    simp only [Bool.and_eq_true, decide_eq_true_eq] at h
    unfold isUpperLatin1
    rw [charOfNat_toNat (by omega)]
    simp only [Bool.or_eq_false_iff, Bool.and_eq_false_iff, decide_eq_false_iff_not]
    omega
  · split
    · rename_i h
      simp only [Bool.and_eq_true, decide_eq_true_eq] at h
      unfold isUpperLatin1
      rw [charOfNat_toNat (by omega)]
      simp only [Bool.or_eq_false_iff, Bool.and_eq_false_iff, decide_eq_false_iff_not]
      omega
    · split
      · rename_i h
        simp only [Bool.and_eq_true, decide_eq_true_eq] at h
        unfold isUpperLatin1
        rw [charOfNat_toNat (by omega)]
        simp only [Bool.or_eq_false_iff, Bool.and_eq_false_iff, decide_eq_false_iff_not]
        omega
      · rename_i h1 h2 h3
        simp only [Bool.and_eq_true, decide_eq_true_eq, not_and, not_le] at h1 h2 h3
        unfold isUpperLatin1
        simp only [Bool.or_eq_false_iff, Bool.and_eq_false_iff, decide_eq_false_iff_not]
        omega

theorem goToLower_not_upper (x : GoStr) (c : Char) (hc : c ∈ goToLower x) :
    isUpperLatin1 c = false := by
  obtain ⟨d, -, rfl⟩ := List.mem_map.mp hc
  exact toLowerChar_not_upper d

theorem alookup_none_of_upper {β : Type} (m : List (GoStr × β)) (d : GoStr)
    (hkeys : ∀ p ∈ m, ∀ c ∈ p.1, isUpperLatin1 c = false)
    (hd : ∃ c ∈ d, isUpperLatin1 c = true) : alookup m d = none := by
  induction m with
  | nil => rfl
  | cons q rest ih =>
    obtain ⟨k, v⟩ := q
    obtain ⟨c, hcd, hcu⟩ := hd
    have hk : k ≠ d := by
      rintro rfl
      have := hkeys (k, v) (List.mem_cons_self _ _) c hcd
      simp [this] at hcu
    simp only [alookup, if_neg hk]
    exact ih fun p hp => hkeys p (List.mem_cons_of_mem _ hp)

theorem processEntry_keys_lower (acc : List (Language × Store))
    (e : FileEntry) (m : List (Language × Store))
    (hacc : ∀ p ∈ acc, ∀ c ∈ p.1, isUpperLatin1 c = false)
    (h : processEntry acc e = .ok m) :
    ∀ p ∈ m, ∀ c ∈ p.1, isUpperLatin1 c = false := by
  obtain ⟨path, isDir, walkErr, content⟩ := e
  unfold processEntry at h
  cases walkErr with
  | some err => exact absurd h (by simp)
  | none =>
    dsimp only at h
    by_cases hd : isDir = true
    · rw [if_pos hd] at h
      cases Except.ok.inj h
      exact hacc
    · rw [if_neg hd] at h
      by_cases hext : pathExt path ≠ gs ".json"
      · rw [if_pos hext] at h
        cases Except.ok.inj h
        exact hacc
      · rw [if_neg hext] at h
        by_cases hv : ¬ Language.Valid
            (goToLower (trimSuffixStr (pathBase path) (pathExt path))) = true
        · rw [if_pos hv] at h
          exact absurd h (by simp)
        · rw [if_neg hv] at h
          cases content with
          | error err => exact absurd h (by simp)
          | ok des =>
            dsimp only at h
            cases hf : flattenObj [] [] des with
            | error fe =>
              rw [hf] at h
              exact absurd h (by simp)
            | ok store =>
              rw [hf] at h
              dsimp only at h
              by_cases hlen : store.length = 0
              · rw [if_pos hlen] at h
                exact absurd h (by simp)
              · rw [if_neg hlen] at h
                cases Except.ok.inj h
                intro p hp
                rcases mem_ainsert _ _ _ p hp with h1 | rfl
                · exact hacc p h1
                · exact fun c hc => goToLower_not_upper _ c hc

theorem walkAll_keys_lower (entries : List FileEntry)
    (acc : List (Language × Store)) (m : List (Language × Store))
    (hacc : ∀ p ∈ acc, ∀ c ∈ p.1, isUpperLatin1 c = false)
    (h : walkAll acc entries = .ok m) :
    ∀ p ∈ m, ∀ c ∈ p.1, isUpperLatin1 c = false := by
  induction entries generalizing acc with
  | nil => exact (Except.ok.inj h) ▸ hacc
  | cons e rest ih =>
    unfold walkAll at h
    split at h
    · exact absurd h (by simp)
    · rename_i acc2 hpe
      exact ih acc2 (processEntry_keys_lower acc e acc2 hacc hpe) h

/-- C9: for every default language code that is valid but contains an
uppercase (Latin-1) letter — e.g. `"EN"` — `Load` never succeeds,
whatever the directory contains: filename-derived language codes are
lower-cased before being stored, while the configured default is
compared verbatim against the mapping, so the final missing-default
check always fails (when no earlier error aborted the walk first). -/
theorem c9_uppercase_default (trl : Translations) (entries : List FileEntry)
    (hv : Language.Valid trl.defaultLanguage = true)
    (hu : ∃ c ∈ trl.defaultLanguage, isUpperLatin1 c = true) :
    (Translations.Load trl entries).2 ≠ none := by
  unfold Translations.Load
  rw [if_neg (by simp [hv])]
  split
  · simp
  · rename_i m hwalk
    rw [alookup_none_of_upper m _
      (walkAll_keys_lower entries [] m (by simp) hwalk) hu]
    simp

theorem c9_uppercase_default_witness :
    (Translations.Load (NewTranslations (gs "d") (gs "EN") none) []).2 ≠ none :=
  c9_uppercase_default (NewTranslations (gs "d") (gs "EN") none) []
    (by decide) ⟨Char.ofNat 69, by decide, by decide⟩

/-! ## C1 — GenerateTranslate fallback -/

/-- A loaded catalog for the fallback claims: default `"en"`, loaded
store for `"en"` only, containing the key `"a"`. -/
def exC1 : Translations :=
  ⟨gs "dir", gs "en", none, [(gs "en", [(gs "a", ⟨gs "hello", []⟩)])]⟩

/-- C1 counterexample: `GenerateTranslate` does not fall back for a
valid-but-unloaded target.  `"de"` is valid and has no loaded store,
the key `"a"` is present in the default language's store (the default
renderer serves it), yet the `"de"` renderer fails with an
unknown-language error instead of succeeding via the default. -/
theorem c1_generate_counterexample :
    Language.Valid (gs "de") = true ∧
    alookup exC1.translations (gs "de") = none ∧
    Translations.GenerateTranslate exC1 exC1.defaultLanguage (gs "a") [] =
      (⟨gs "hello"⟩, none) ∧
    Translations.GenerateTranslate exC1 (gs "de") (gs "a") [] =
      (⟨[]⟩, some (.unknownLanguage (gs "de"))) := by
  decide

/-- C1 amended: the fixed renderer substitutes the configured default
language only when the target code is invalid; a valid target is kept
verbatim even when it has no loaded store, in which case every call
fails with an unknown-language error naming the target rather than
falling back to the default. -/
theorem c1_generate_fallback (trl : Translations) (targetLang : GoStr)
    (k : Key) (params : List GoValue) :
    (Language.Valid targetLang = false →
      Translations.GenerateTranslate trl targetLang k params =
        renderWith trl trl.defaultLanguage k params) ∧
    (Language.Valid targetLang = true →
      Translations.GenerateTranslate trl targetLang k params =
        renderWith trl targetLang k params) ∧
    (∀ lookup, Language.Valid targetLang = true →
      createIntermediateLookup params = .ok lookup →
      alookup trl.translations targetLang = none →
      Translations.GenerateTranslate trl targetLang k params =
        (⟨[]⟩, some (.unknownLanguage targetLang))) := by
  refine ⟨?_, ?_, ?_⟩
  · intro h
    simp [Translations.GenerateTranslate, h]
  · intro h
    simp [Translations.GenerateTranslate, h]
  · intro lookup hv hcl hnone
    simp [Translations.GenerateTranslate, hv, renderWith, hcl, hnone]

theorem c1_generate_fallback_witness :
    Translations.GenerateTranslate exC1 (gs "xxx") (gs "a") [] =
      renderWith exC1 exC1.defaultLanguage (gs "a") [] :=
  (c1_generate_fallback exC1 (gs "xxx") (gs "a") []).1 (by decide)

/-! ## C3 — substitution and escaping -/

theorem substitute_ok (key : Key) (lookup : List (Intermediate × GoValue))
    (l : List Intermediate) (msg : GoStr)
    (h : ∀ i ∈ l, (alookup lookup i).isSome = true) :
    substitute key lookup l msg =
      .ok (l.foldl (fun m i =>
        goReplaceAll m (Intermediate.Format i)
          (htmlEscape (sprintfV ((alookup lookup i).getD (.str []))))) msg) := by
  induction l generalizing msg with
  | nil => rfl
  | cons i rest ih =>
    obtain ⟨v, hv⟩ := Option.isSome_iff_exists.mp (h i (by simp))
    have hrest : ∀ j ∈ rest, (alookup lookup j).isSome = true :=
      fun j hj => h j (by simp [hj])
    simp only [substitute, hv, List.foldl_cons, Option.getD_some]
    exact ih _ hrest

/-- C3: for every stored translation and complete parameter list, the
dynamic renderer succeeds and returns — marked as raw pre-escaped HTML —
the message rewritten by, for each parsed placeholder in order,
replacing every literal occurrence of its formatted token with the
HTML-escaped default stringification of the supplied value. -/
theorem c3_translate_substitution (trl : Translations) (k : Key)
    (params : List GoValue) (lookup : List (Intermediate × GoValue))
    (store : Store) (tr : Translation)
    (h1 : createIntermediateLookup params = .ok lookup)
    (h2 : alookup trl.translations (resolvedLang trl) = some store)
    (h3 : alookup store k = some tr)
    (h4 : ∀ i ∈ tr.Intermediates, (alookup lookup i).isSome = true) :
    Translations.Translate trl k params =
      (⟨tr.Intermediates.foldl (fun m i =>
          goReplaceAll m (Intermediate.Format i)
            (htmlEscape (sprintfV ((alookup lookup i).getD (.str []))))) tr.Message⟩,
        none) := by
  unfold Translations.Translate renderWith
  rw [h1]
  dsimp only
  rw [h2]
  dsimp only
  rw [h3]
  dsimp only
  rw [substitute_ok k lookup tr.Intermediates tr.Message h4]

/-- The spec's worked example, obtained through the substitution
theorem: `"Hello {\x7bname\x7d}"` rendered with `name = "<script>"`
yields the escaped `"Hello &lt;script&gt;"`. -/
def msgC3 : GoStr := gs "Hello " ++ openDelim ++ gs "name" ++ closeDelim

def exC3 : Translations :=
  ⟨gs "dir", gs "en", none, [(gs "en", [(gs "key", ⟨msgC3, [gs "name"]⟩)])]⟩

theorem c3_translate_substitution_witness :
    Translations.Translate exC3 (gs "key")
        [.str (gs "name"), .str (gs "<script>")] =
      (⟨gs "Hello &lt;script&gt;"⟩, none) :=
  (c3_translate_substitution exC3 (gs "key")
      [.str (gs "name"), .str (gs "<script>")]
      [(gs "name", .str (gs "<script>"))]
      [(gs "key", ⟨msgC3, [gs "name"]⟩)] ⟨msgC3, [gs "name"]⟩
      (by decide) (by decide) (by decide) (by decide)).trans (by decide)

/-! ## C7 — Translate error conditions -/

/-- Is a value a string? (Go's `parameter[i].(string)` type assertion
succeeding.) -/
def GoValue.isStr : GoValue → Bool
  | .str _ => true
  | _ => false

theorem buildLookup_error :
    ∀ (params : List GoValue) (acc : List (Intermediate × GoValue)),
      params.length % 2 = 0 →
      (∃ j, j % 2 = 0 ∧ j < params.length ∧
        GoValue.isStr (params.getD j (.str [])) = false) →
      buildLookup acc params = .error .dictKeysMustBeStrings
  | [], _, _, hbad => by
    obtain ⟨j, -, hjlt, -⟩ := hbad
    simp at hjlt
  | [x], _, hlen, _ => by simp at hlen
  | a :: b :: rest, acc, hlen, hbad => by
    cases a with
    | str s =>
      obtain ⟨j, hj0, hjlt, hbadj⟩ := hbad
      match j, hj0, hjlt, hbadj with
      | 0, _, _, hbadj => simp [List.getD, GoValue.isStr] at hbadj
      | 1, hj0, _, _ => simp at hj0
      | (j + 2), hj0, hjlt, hbadj =>
        have hr : buildLookup (ainsert acc s b) rest = .error .dictKeysMustBeStrings := by
          refine buildLookup_error rest _ (by simp at hlen ⊢; omega) ⟨j, by omega, ?_, ?_⟩
          · simp at hjlt; omega
          · simpa [List.getD_cons_succ] using hbadj
        simpa [buildLookup] using hr
    | int n => simp [buildLookup]
    | bool bb => simp [buildLookup]

theorem substitute_missing (key : Key) (lookup : List (Intermediate × GoValue)) :
    ∀ (l : List Intermediate) (msg : GoStr),
      (∃ i ∈ l, alookup lookup i = none) →
      ∃ i, alookup lookup i = none ∧
        substitute key lookup l msg = .error (.parameterRequired key i) := by
  intro l
  induction l with
  | nil => simp
  | cons i rest ih =>
    rintro msg ⟨j, hj, hjn⟩
    cases hli : alookup lookup i with
    | none => exact ⟨i, hli, by simp [substitute, hli]⟩
    | some v =>
      have hjr : j ∈ rest := by
        rcases List.mem_cons.mp hj with rfl | h
        · exact absurd hjn (by simp [hli])
        · exact h
      obtain ⟨i2, hi2, hs⟩ :=
        ih (goReplaceAll msg (Intermediate.Format i) (htmlEscape (sprintfV v)))
          ⟨j, hjr, hjn⟩
      exact ⟨i2, hi2, by simp [substitute, hli, hs]⟩

/-- C7: `Translate` returns the empty rendered string together with an
error whenever the parameter list has odd length, a name-position
parameter is not a string, no store exists for the resolved language,
the key is absent from that store, or a parsed placeholder has no entry
in the parameter lookup; each condition yields its own distinct error
and never a partially substituted output. -/
theorem c7_translate_errors (trl : Translations) (k : Key)
    (params : List GoValue) :
    (params.length % 2 ≠ 0 →
      Translations.Translate trl k params = (⟨[]⟩, some .invalidDictCall)) ∧
    (params.length % 2 = 0 →
      (∃ j, j % 2 = 0 ∧ j < params.length ∧
        GoValue.isStr (params.getD j (.str [])) = false) →
      Translations.Translate trl k params =
        (⟨[]⟩, some .dictKeysMustBeStrings)) ∧
    (∀ lookup, createIntermediateLookup params = .ok lookup →
      alookup trl.translations (resolvedLang trl) = none →
      Translations.Translate trl k params =
        (⟨[]⟩, some (.unknownLanguage (resolvedLang trl)))) ∧
    (∀ lookup store, createIntermediateLookup params = .ok lookup →
      alookup trl.translations (resolvedLang trl) = some store →
      alookup store k = none →
      Translations.Translate trl k params = (⟨[]⟩, some (.unknownKey k))) ∧
    (∀ lookup store tr, createIntermediateLookup params = .ok lookup →
      alookup trl.translations (resolvedLang trl) = some store →
      alookup store k = some tr →
      (∃ i ∈ tr.Intermediates, alookup lookup i = none) →
      ∃ i, alookup lookup i = none ∧
        Translations.Translate trl k params =
          (⟨[]⟩, some (.parameterRequired k i))) := by
  refine ⟨?_, ?_, ?_, ?_, ?_⟩
  · intro hodd
    unfold Translations.Translate renderWith
    rw [show createIntermediateLookup params = .error .invalidDictCall from by
      simp [createIntermediateLookup, hodd]]
  · intro heven hbad
    unfold Translations.Translate renderWith
    rw [show createIntermediateLookup params = .error .dictKeysMustBeStrings from by
      simp only [createIntermediateLookup, heven]
      simpa using buildLookup_error params [] heven hbad]
  · intro lookup hcl hnone
    unfold Translations.Translate renderWith
    rw [hcl]
    dsimp only
    rw [hnone]
  · intro lookup store hcl hst hnone
    unfold Translations.Translate renderWith
    rw [hcl]
    dsimp only
    rw [hst]
    dsimp only
    rw [hnone]
  · intro lookup store tr hcl hst hkey hmiss
    obtain ⟨i, hin, hsub⟩ :=
      substitute_missing k lookup tr.Intermediates tr.Message hmiss
    refine ⟨i, hin, ?_⟩
    unfold Translations.Translate renderWith
    rw [hcl]
    dsimp only
    rw [hst]
    dsimp only
    rw [hkey]
    dsimp only
    rw [hsub]

theorem c7_translate_errors_witness :
    Translations.Translate exC1 (gs "a") [.str (gs "x")] =
      (⟨[]⟩, some .invalidDictCall) :=
  (c7_translate_errors exC1 (gs "a") [.str (gs "x")]).1 (by decide)

/-! ## C10 — whitespace-padded placeholders -/

/-- Does the non-empty pattern `p :: ps` occur anywhere in the
string? -/
def hasOccur (p : Char) (ps : GoStr) : GoStr → Bool
  | [] => false
  | c :: rest => startsWith (c :: rest) (p :: ps) || hasOccur p ps rest

theorem replaceFuel_noop (p : Char) (ps repl : GoStr) :
    ∀ (fuel : Nat) (s : GoStr), hasOccur p ps s = false →
      replaceFuel p ps repl fuel s = s := by
  intro fuel
  induction fuel with
  | zero =>
    intro s hs
    cases s <;> rfl
  | succ n ih =>
    intro s hs
    cases s with
    | nil => rfl
    | cons c rest =>
      simp only [hasOccur, Bool.or_eq_false_iff] at hs
      simp only [replaceFuel, hs.1, Bool.false_eq_true, if_false]
      rw [ih rest hs.2]

theorem goReplaceAll_noop (s : GoStr) (p : Char) (ps repl : GoStr)
    (h : hasOccur p ps s = false) : goReplaceAll s (p :: ps) repl = s :=
  replaceFuel_noop p ps repl s.length s h

/-- The message `"Hello {\x7b name \x7d}"` whose placeholder carries
interior whitespace. -/
def msgPad : GoStr := gs "Hello " ++ openDelim ++ gs " name " ++ closeDelim

/-- A catalog storing `msgPad` under key `"k"` with its parsed (trimmed)
intermediate, exactly as `Load` would store it. -/
def trlPad : Translations :=
  ⟨gs "dir", gs "en", none, [(gs "en", [(gs "k", ⟨msgPad, [gs "name"]⟩)])]⟩

/-- C10: for a message whose placeholder is written with interior
whitespace, the parser records the trimmed name — so `Translate`
requires a parameter for it — but substitution only replaces the exact
token rebuilt without whitespace, which does not occur; the replacement is a
silent no-op and the successful output keeps the padded placeholder
text verbatim, whatever value was supplied. -/
theorem c10_padded_placeholder (v : GoValue) :
    parseIntermediates msgPad = .ok [gs "name"] ∧
    Translations.Translate trlPad (gs "k") [.str (gs "name"), v] =
      (⟨msgPad⟩, none) ∧
    Translations.Translate trlPad (gs "k") [] =
      (⟨[]⟩, some (.parameterRequired (gs "k") (gs "name"))) := by
  refine ⟨by decide, ?_, by decide⟩
  have hfmt : Intermediate.Format (gs "name") =
      lbrace :: lbrace :: (gs "name" ++ closeDelim) := by decide
  have hrepl : ∀ repl, goReplaceAll msgPad (Intermediate.Format (gs "name")) repl = msgPad := by
    intro repl
    rw [hfmt]
    exact goReplaceAll_noop msgPad _ _ repl (by decide)
  have hsub : substitute (gs "k") [(gs "name", v)] [gs "name"] msgPad = .ok msgPad := by
    simp only [substitute, alookup, if_pos]
    rw [hrepl]
  unfold Translations.Translate renderWith
  rw [show createIntermediateLookup [.str (gs "name"), v] = .ok [(gs "name", v)] from by
    simp [createIntermediateLookup, buildLookup, ainsert]]
  dsimp only
  rw [show alookup trlPad.translations (resolvedLang trlPad) =
      some [(gs "k", ⟨msgPad, [gs "name"]⟩)] from by decide]
  dsimp only
  rw [show alookup [(gs "k", (⟨msgPad, [gs "name"]⟩ : Translation))] (gs "k") =
      some ⟨msgPad, [gs "name"]⟩ from by decide]
  dsimp only
  rw [hsub]

end I18n
